import Mathlib

/-!
Verification of the NGA forum fetch-and-classify pipeline
(`ollama_client.py`, `nga_classifier.py`, `utils.py`, `config.py`).

Python values flowing through the pipeline (JSON-decoded objects, post
records, classification dicts) are modelled by `PyVal`; Python `dict`s
with string keys are association lists with first-key lookup and
in-place update, matching `dict.__getitem__` / `dict.update` insertion
semantics.  Python floats are modelled as rationals (the code only ever
produces and compares the exact constants 0, 0.3, 0.5).  External
library calls (`json.loads`, the HTTP transport, BeautifulSoup HTML
extraction, `datetime.now`) are passed in as explicit parameters, so
every function here is the pure part of the corresponding Python
function with its external inputs made explicit.
-/

/-- A Python value as it appears in the pipeline: JSON scalars and
containers, plus `datetime` objects (which `generate_statistics` may
meet under the `parsed_time` key); `datetime d` carries the string its
`strftime` with a year-month-day format would produce. -/
inductive PyVal where
  | null
  | bool (b : Bool)
  | num (q : ℚ)
  | str (s : String)
  | arr (xs : List PyVal)
  | obj (kvs : List (String × PyVal))
  | datetime (ymd : String)

/-- A Python `dict` with string keys, in insertion order. -/
abbrev PyDict := List (String × PyVal)

/-- `d[k]` as `d.get(k)`: the value stored at the first (only) matching key. -/
def dictGet (d : PyDict) (k : String) : Option PyVal :=
  match d with
  | [] => none
  | (k', v') :: rest => if k' = k then some v' else dictGet rest k

/-- `d[k] = v` / `d.update({k: v})`: replaces the value in place when the
key exists, otherwise appends the new pair, as CPython dicts do. -/
def dictSet (d : PyDict) (k : String) (v : PyVal) : PyDict :=
  match d with
  | [] => [(k, v)]
  | (k', v') :: rest => if k' = k then (k', v) :: rest else (k', v') :: dictSet rest k v

theorem dictGet_dictSet_self (d : PyDict) (k : String) (v : PyVal) :
    dictGet (dictSet d k v) k = some v := by
  induction d with
  | nil => simp [dictGet, dictSet]
  | cons hd tl ih =>
    by_cases h : hd.1 = k
    · simp [dictGet, dictSet, h]
    · simp [dictGet, dictSet, h, ih]

theorem dictGet_dictSet_of_ne (d : PyDict) (k k' : String) (v : PyVal) (h : k ≠ k') :
    dictGet (dictSet d k v) k' = dictGet d k' := by
  induction d with
  | nil => simp [dictGet, dictSet, h]
  | cons hd tl ih =>
    by_cases hk : hd.1 = k
    · simp [dictGet, dictSet, hk, h]
    · by_cases hk' : hd.1 = k'
      · simp [dictGet, dictSet, hk, hk', Ne.symm h]
      · simp [dictGet, dictSet, hk, hk', ih]

/-- ASCII whitespace stripped by `str.strip()`. -/
def pyIsSpace (c : Char) : Bool :=
  c = ' ' || c = '\t' || c = '\n' || c = '\r' || c = Char.ofNat 11 || c = Char.ofNat 12

/-- `str.strip()` on the character list. -/
def pyStrip (s : List Char) : List Char :=
  ((s.dropWhile pyIsSpace).reverse.dropWhile pyIsSpace).reverse

/-- `str.strip()`. -/
def pyStripS (s : String) : String := String.mk (pyStrip s.data)

/-- `str.lower()` (ASCII case folding; the keyword groups below are all
ASCII-lowercase or Chinese, which `lower` leaves unchanged). -/
def pyLower (s : String) : String := String.mk (s.data.map Char.toLower)

/-- The opening-brace character. -/
def lbrace : Char := Char.ofNat 123

/-- The closing-brace character. -/
def rbrace : Char := Char.ofNat 125

/-- The span `response[response.find(lbrace) : response.rfind(rbrace)+1]`
computed by `_parse_classification_result`, or `none` when
`json_start == -1 or json_end <= json_start`. -/
def findJsonSpan (s : List Char) : Option (List Char) :=
  match s.findIdx? (· = lbrace), s.reverse.findIdx? (· = rbrace) with
  | some i, some jr =>
    let j := s.length - 1 - jr
    if i < j + 1 then some ((s.drop i).take (j + 1 - i)) else none
  | _, _ => none

/-- String-level wrapper for `findJsonSpan`. -/
def findJsonSpanS (s : String) : Option String := (findJsonSpan s.data).map String.mk

/-- Python's `needle in haystack` substring test, on character lists. -/
def listContains (needle : List Char) : List Char → Bool
  | [] => needle.isEmpty
  | c :: rest => needle.isPrefixOf (c :: rest) || listContains needle rest

/-- Python's `needle in haystack` on strings. -/
def strContains (haystack needle : String) : Bool := listContains needle.data haystack.data

/-- `any(word in response_lower for word in words)`. -/
def containsAny (responseLower : String) (words : List String) : Bool :=
  words.any (fun w => strContains responseLower w)

/-- `CLASSIFICATION_CATEGORIES` from `config.py`: the fixed 8-way taxonomy. -/
def CLASSIFICATION_CATEGORIES : List String :=
  ["动画/番剧", "游戏", "漫画", "轻小说", "虚拟主播/VTuber", "手办/周边", "音乐/歌曲", "其他"]

/-- The if/elif priority chain of `OllamaClient._fallback_parse`: each
branch assigns a one-element `categories` list; this returns the single
category of the branch taken (the source writes `result['categories'] =
['...']`, i.e. the singleton of this value). -/
def fallback_category (response_lower : String) : String :=
  if containsAny response_lower ["动画", "番剧", "anime"] then "动画/番剧"
  else if containsAny response_lower ["游戏", "game", "手游"] then "游戏"
  else if containsAny response_lower ["漫画", "manga"] then "漫画"
  else if containsAny response_lower ["轻小说", "小说", "novel"] then "轻小说"
  else if containsAny response_lower ["vtuber", "虚拟主播", "主播"] then "虚拟主播/VTuber"
  else if containsAny response_lower ["手办", "周边", "figure"] then "手办/周边"
  else if containsAny response_lower ["音乐", "歌曲", "music"] then "音乐/歌曲"
  else "其他"

/-- `OllamaClient._fallback_parse`: keyword-priority classification of the
raw response text, used when no JSON object can be extracted.  The
initial dict `{categories: [], keywords: [], confidence: 0.3}` always
has its `categories` entry reassigned to the singleton chosen by the
if/elif chain, so the net result is this dict. -/
def fallback_parse (response : String) : PyDict :=
  [("categories", PyVal.arr [PyVal.str (fallback_category (pyLower response))]),
   ("keywords", PyVal.arr []),
   ("confidence", PyVal.num (3/10))]

/-- True when none of the eight keyword groups of `_fallback_parse`
matches the lower-cased response, so the catch-all branch fires. -/
def noFallbackKeyword (response : String) : Bool :=
  let rl := pyLower response
  !(containsAny rl ["动画", "番剧", "anime"] || containsAny rl ["游戏", "game", "手游"] ||
    containsAny rl ["漫画", "manga"] || containsAny rl ["轻小说", "小说", "novel"] ||
    containsAny rl ["vtuber", "虚拟主播", "主播"] || containsAny rl ["手办", "周边", "figure"] ||
    containsAny rl ["音乐", "歌曲", "music"])

/-- One `if 'k' not in result: result['k'] = v` validation line of
`_parse_classification_result`. -/
def backfill (r : PyDict) (k : String) (v : PyVal) : PyDict :=
  if (dictGet r k).isNone then dictSet r k v else r

/-- The three backfill lines of `_parse_classification_result`: missing
`categories` / `keywords` / `confidence` keys get `[]` / `[]` / `0.5`. -/
def normalize_r3 (result : PyDict) : PyDict :=
  backfill (backfill (backfill result "categories" (PyVal.arr []))
    "keywords" (PyVal.arr [])) "confidence" (PyVal.num (1/2))

/-- The normalization `_parse_classification_result` applies to a decoded
JSON object: backfill missing required keys, then collapse a
multi-element `categories` list to its first element (the mutual
exclusivity enforcement point). -/
def normalize_classification (result : PyDict) : PyDict :=
  match dictGet (normalize_r3 result) "categories" with
  | some (PyVal.arr (c :: _ :: _)) => dictSet (normalize_r3 result) "categories" (PyVal.arr [c])
  | _ => normalize_r3 result

/-- `OllamaClient._parse_classification_result`.  `decode` stands for the
external `json.loads`: `none` models a `JSONDecodeError` (fallback
path); a decoded non-dict value makes the subsequent key assignments
raise `TypeError`, caught by the outer handler which returns the
all-default dict. -/
def parse_classification_result (decode : String → Option PyVal) (response : String) : PyDict :=
  match findJsonSpanS (pyStripS response) with
  | some jsonStr =>
    match decode jsonStr with
    | some (PyVal.obj result) => normalize_classification result
    | some _ => [("categories", PyVal.arr []), ("keywords", PyVal.arr []), ("confidence", PyVal.num 0)]
    | none => fallback_parse (pyStripS response)
  | none => fallback_parse (pyStripS response)

theorem dictGet_backfill_self (r : PyDict) (k : String) (v : PyVal) :
    dictGet (backfill r k v) k = some ((dictGet r k).getD v) := by
  unfold backfill
  rcases h : dictGet r k with _ | w
  · simpa [h] using dictGet_dictSet_self r k v
  · simp [h]

theorem dictGet_backfill_of_ne (r : PyDict) (k k' : String) (v : PyVal) (h : k ≠ k') :
    dictGet (backfill r k v) k' = dictGet r k' := by
  unfold backfill
  split
  · exact dictGet_dictSet_of_ne r k k' v h
  · rfl

theorem normalize_r3_categories (result : PyDict) :
    dictGet (normalize_r3 result) "categories" =
      some ((dictGet result "categories").getD (PyVal.arr [])) := by
  unfold normalize_r3
  rw [dictGet_backfill_of_ne _ "confidence" "categories" _ (by decide),
      dictGet_backfill_of_ne _ "keywords" "categories" _ (by decide),
      dictGet_backfill_self]

theorem normalize_r3_confidence (result : PyDict) :
    dictGet (normalize_r3 result) "confidence" =
      some ((dictGet result "confidence").getD (PyVal.num (1/2))) := by
  unfold normalize_r3
  rw [dictGet_backfill_self,
      dictGet_backfill_of_ne _ "keywords" "confidence" _ (by decide),
      dictGet_backfill_of_ne _ "categories" "confidence" _ (by decide)]

theorem normalize_categories_eq (result : PyDict) :
    dictGet (normalize_classification result) "categories" =
      match dictGet result "categories" with
      | none => some (PyVal.arr [])
      | some (PyVal.arr (a :: _ :: _)) => some (PyVal.arr [a])
      | some v => some v := by
  unfold normalize_classification
  have h3 := normalize_r3_categories result
  rcases hcat : dictGet result "categories" with _ | v
  · rw [hcat] at h3
    simp only [h3, Option.getD_none]
  · rw [hcat] at h3
    rcases v with _ | b | q | s | xs | kvs | d
    case arr =>
      rcases xs with _ | ⟨a, _ | ⟨b, rest⟩⟩
      · simp only [h3, Option.getD_some]
      · simp only [h3, Option.getD_some]
      · simp only [h3, Option.getD_some]
        exact dictGet_dictSet_self ..
    all_goals simp only [h3, Option.getD_some]

theorem normalize_confidence_eq (result : PyDict) :
    dictGet (normalize_classification result) "confidence" =
      some ((dictGet result "confidence").getD (PyVal.num (1/2))) := by
  unfold normalize_classification
  split
  · rw [dictGet_dictSet_of_ne _ "categories" "confidence" _ (by decide)]
    exact normalize_r3_confidence result
  · exact normalize_r3_confidence result

theorem fallback_category_mem (rl : String) :
    fallback_category rl ∈ CLASSIFICATION_CATEGORIES := by
  unfold fallback_category CLASSIFICATION_CATEGORIES
  split
  · simp
  split
  · simp
  split
  · simp
  split
  · simp
  split
  · simp
  split
  · simp
  split
  · simp
  · simp

/-- C1: if the raw response strips to a string whose brace-delimited span
JSON-decodes to an object whose `categories` entry is a list with more
than one element, the parsed result's `categories` is the singleton of
its first element; and whenever the decoded object's `categories` entry
is a list (or missing, hence backfilled), the parsed result's
`categories` is a list with at most one element. -/
theorem c1_mutual_exclusivity (decode : String → Option PyVal) (response s : String)
    (result : PyDict)
    (hspan : findJsonSpanS (pyStripS response) = some s)
    (hdec : decode s = some (PyVal.obj result)) :
    (∀ a b rest, dictGet result "categories" = some (PyVal.arr (a :: b :: rest)) →
      dictGet (parse_classification_result decode response) "categories" =
        some (PyVal.arr [a])) ∧
    (∀ cats, (dictGet result "categories" = some (PyVal.arr cats) ∨
        dictGet result "categories" = none) →
      ∃ cats', dictGet (parse_classification_result decode response) "categories" =
        some (PyVal.arr cats') ∧ cats'.length ≤ 1) := by
  have hp : parse_classification_result decode response = normalize_classification result := by
    simp only [parse_classification_result, hspan, hdec]
  constructor
  · intro a b rest hcats
    rw [hp, normalize_categories_eq, hcats]
  · intro cats hc
    rcases hc with hc | hc
    · rcases cats with _ | ⟨a, _ | ⟨b, rest⟩⟩
      · exact ⟨[], by rw [hp, normalize_categories_eq, hc], by simp⟩
      · exact ⟨[a], by rw [hp, normalize_categories_eq, hc], by simp⟩
      · exact ⟨[a], by rw [hp, normalize_categories_eq, hc], by simp⟩
    · exact ⟨[], by rw [hp, normalize_categories_eq, hc], by simp⟩

/-- Concrete instance of C1: a decoded object with `categories`
`["A", "B"]` is collapsed to `["A"]`, and the result has at most one
category. -/
theorem c1_mutual_exclusivity_witness :
    dictGet (parse_classification_result
        (fun _ => some (PyVal.obj [("categories", PyVal.arr [PyVal.str "A", PyVal.str "B"])]))
        "\x7b\x7d") "categories" = some (PyVal.arr [PyVal.str "A"]) ∧
    ∃ cats', dictGet (parse_classification_result
        (fun _ => some (PyVal.obj [("categories", PyVal.arr [PyVal.str "A", PyVal.str "B"])]))
        "\x7b\x7d") "categories" = some (PyVal.arr cats') ∧ cats'.length ≤ 1 := by
  have h := c1_mutual_exclusivity
    (fun _ => some (PyVal.obj [("categories", PyVal.arr [PyVal.str "A", PyVal.str "B"])]))
    "\x7b\x7d" "\x7b\x7d" [("categories", PyVal.arr [PyVal.str "A", PyVal.str "B"])]
    rfl rfl
  exact ⟨h.1 (PyVal.str "A") (PyVal.str "B") [] rfl,
         h.2 [PyVal.str "A", PyVal.str "B"] (Or.inl rfl)⟩

/-- C2: for an arbitrary input string, the fallback parser returns exactly
one category, drawn from the fixed 8-way taxonomy, with confidence
exactly 0.3; and when no keyword group matches, that category is the
catch-all 其他. -/
theorem c2_fallback_always_succeeds (s : String) :
    (∃ c, c ∈ CLASSIFICATION_CATEGORIES ∧
      dictGet (fallback_parse s) "categories" = some (PyVal.arr [PyVal.str c])) ∧
    dictGet (fallback_parse s) "confidence" = some (PyVal.num (3/10)) ∧
    (noFallbackKeyword s = true →
      dictGet (fallback_parse s) "categories" = some (PyVal.arr [PyVal.str "其他"])) := by
  refine ⟨⟨fallback_category (pyLower s), fallback_category_mem _, rfl⟩, rfl, ?_⟩
  intro h
  unfold noFallbackKeyword at h
  simp only [Bool.not_eq_true', Bool.or_eq_false_iff] at h
  obtain ⟨⟨⟨⟨⟨⟨h1, h2⟩, h3⟩, h4⟩, h5⟩, h6⟩, h7⟩ := h
  have hcat : fallback_category (pyLower s) = "其他" := by
    simp [fallback_category, h1, h2, h3, h4, h5, h6, h7]
  simp [fallback_parse, hcat, dictGet]

/-- Concrete instance of C2: an input matching no keyword group yields the
catch-all 其他 category. -/
theorem c2_fallback_always_succeeds_witness :
    dictGet (fallback_parse "hello") "categories" =
      some (PyVal.arr [PyVal.str "其他"]) :=
  (c2_fallback_always_succeeds "hello").2.2 rfl

/-- C7 (amended): the confidence of every parsed classification result is
a rational in [0,1] — fallback 0.3, backfilled default 0.5, non-dict
error default 0.0 — except on the structured path when the decoded JSON
object supplies its own `confidence` entry, which is passed through
unchanged (so it lies in [0,1] only if the supplied value does). -/
theorem c7_confidence_range (decode : String → Option PyVal) (response : String) :
    (∃ q : ℚ, dictGet (parse_classification_result decode response) "confidence" =
        some (PyVal.num q) ∧ 0 ≤ q ∧ q ≤ 1) ∨
    (∃ s result, findJsonSpanS (pyStripS response) = some s ∧
      decode s = some (PyVal.obj result) ∧ (dictGet result "confidence").isSome ∧
      dictGet (parse_classification_result decode response) "confidence" =
        dictGet result "confidence") := by
  rcases hspan : findJsonSpanS (pyStripS response) with _ | s
  · left
    refine ⟨3/10, ?_, by norm_num, by norm_num⟩
    simp only [parse_classification_result, hspan]
    rfl
  · rcases hdec : decode s with _ | v
    · left
      refine ⟨3/10, ?_, by norm_num, by norm_num⟩
      simp only [parse_classification_result, hspan, hdec]
      rfl
    · rcases v with _ | b | q | s' | xs | result | d
      case obj =>
        rcases hconf : dictGet result "confidence" with _ | w
        · left
          refine ⟨1/2, ?_, by norm_num, by norm_num⟩
          simp only [parse_classification_result, hspan, hdec]
          rw [normalize_confidence_eq, hconf]
          rfl
        · right
          refine ⟨s, result, rfl, hdec, by simp [hconf], ?_⟩
          simp only [parse_classification_result, hspan, hdec]
          rw [normalize_confidence_eq, hconf]
          rfl
      all_goals
        left
      all_goals
        refine ⟨0, ?_, le_refl 0, by norm_num⟩
      all_goals
        simp only [parse_classification_result, hspan, hdec]
      all_goals
        rfl

/-- A decode oracle agreeing with `json.loads` on the one span it is
applied to below: `json.loads` on the text `{"confidence": 2.0}` gives
the object `{'confidence': 2.0}`; every other input is mapped to a
decode error, and is never consulted. -/
def decodeConfTwo : String → Option PyVal :=
  fun s =>
    if s = "\x7b\"confidence\": 2.0\x7d"
    then some (PyVal.obj [("confidence", PyVal.num 2)])
    else none

/-- Counterexample to C7 as stated: the raw response `{"confidence": 2.0}`
is structurally parsed (its brace span is the whole string, and
`json.loads` yields `{'confidence': 2.0}`), and the resulting
ClassificationResult carries confidence 2, which is not in [0,1]. -/
theorem c7_confidence_range_counterexample :
    dictGet (parse_classification_result decodeConfTwo "\x7b\"confidence\": 2.0\x7d")
      "confidence" = some (PyVal.num 2) ∧ ¬ ((2 : ℚ) ≤ 1) := by
  constructor
  · rfl
  · norm_num

/-- C8 (amended): for any service response in which no JSON span is found,
whenever the (stripped, lower-cased) response text contains the anime
keyword 动画, the classification falls back to the single category
动画/番剧 with confidence 0.3.  (The fallback matches keywords in the
response text, not in the post title or content.) -/
theorem c8_fallback_scenario (decode : String → Option PyVal) (response : String)
    (hspan : findJsonSpanS (pyStripS response) = none)
    (hkw : strContains (pyLower (pyStripS response)) "动画" = true) :
    dictGet (parse_classification_result decode response) "categories" =
      some (PyVal.arr [PyVal.str "动画/番剧"]) ∧
    dictGet (parse_classification_result decode response) "confidence" =
      some (PyVal.num (3/10)) := by
  have hany : containsAny (pyLower (pyStripS response)) ["动画", "番剧", "anime"] = true := by
    simp [containsAny, hkw]
  have hcat : fallback_category (pyLower (pyStripS response)) = "动画/番剧" := by
    simp [fallback_category, hany]
  constructor
  · simp only [parse_classification_result, hspan]
    simp [fallback_parse, hcat, dictGet]
  · simp only [parse_classification_result, hspan]
    rfl

/-- Concrete instance of C8 (amended): a JSON-less response that itself
mentions 动画 falls back to 动画/番剧 with confidence 0.3. -/
theorem c8_fallback_scenario_witness :
    dictGet (parse_classification_result (fun _ => none) "这是动画相关讨论") "categories" =
      some (PyVal.arr [PyVal.str "动画/番剧"]) ∧
    dictGet (parse_classification_result (fun _ => none) "这是动画相关讨论") "confidence" =
      some (PyVal.num (3/10)) :=
  c8_fallback_scenario (fun _ => none) "这是动画相关讨论" rfl rfl

/-- Counterexample to C8 as stated: with the spec's scenario input (title
containing 新番推荐, content containing 鬼灭之刃), a service response
lacking valid JSON does NOT necessarily fall back to 动画/番剧 — a
response that merely echoes 鬼灭之刃 matches no keyword group and is
classified 其他, because the keyword match runs on the response text. -/
theorem c8_fallback_scenario_counterexample :
    dictGet (parse_classification_result (fun _ => none) "鬼灭之刃") "categories" =
      some (PyVal.arr [PyVal.str "其他"]) ∧
    dictGet (parse_classification_result (fun _ => none) "鬼灭之刃") "categories" ≠
      some (PyVal.arr [PyVal.str "动画/番剧"]) := by
  have hpos : dictGet (parse_classification_result (fun _ => none) "鬼灭之刃") "categories" =
      some (PyVal.arr [PyVal.str "其他"]) := rfl
  refine ⟨hpos, ?_⟩
  rw [hpos]
  intro h
  injection h with h1
  injection h1 with h2
  injection h2 with h3 h4
  injection h3 with h5
  exact (by decide : ¬ ("其他" = "动画/番剧")) h5

/-- `OllamaClient.classify_content`.  `callResult` is the value returned
by `_call_ollama` (`none` models a transport error; the empty string is
possible since `_call_ollama` defaults a missing `response` field to
`''`); `if not response: return None` rejects both.  All exception paths
inside return `None`, so the function is total. -/
def classify_content (decode : String → Option PyVal) (callResult : Option String) :
    Option PyDict :=
  match callResult with
  | none => none
  | some r => if r = "" then none else some (parse_classification_result decode r)

/-- The default classification attached by `batch_classify` on failure. -/
def default_classification : PyDict :=
  [("categories", PyVal.arr [PyVal.str "其他"]),
   ("keywords", PyVal.arr []),
   ("confidence", PyVal.num 0)]

/-- One iteration of `batch_classify`: copy the post record and attach
`classification` and `processed_at` (plus `error` and the default
classification when `classify_content` produced nothing — Python tests
`if classification:`, which is also false for an empty dict). -/
def classify_record (decode : String → Option PyVal) (now : String)
    (post : PyDict) (resp : Option String) : PyDict :=
  match classify_content decode resp with
  | some c =>
    if c.isEmpty then
      dictSet (dictSet (dictSet post "classification" (PyVal.obj default_classification))
        "processed_at" (PyVal.str now)) "error" (PyVal.str "分类失败")
    else
      dictSet (dictSet post "classification" (PyVal.obj c)) "processed_at" (PyVal.str now)
  | none =>
    dictSet (dictSet (dictSet post "classification" (PyVal.obj default_classification))
      "processed_at" (PyVal.str now)) "error" (PyVal.str "分类失败")

/-- The loop of `OllamaClient.batch_classify`; `respond i` is the raw
service response obtained for the i-th post (0-based), `now` the
timestamp `_get_current_time` returns. -/
def batch_classify_go (decode : String → Option PyVal) (now : String)
    (respond : Nat → Option String) (i : Nat) : List PyDict → List PyDict
  | [] => []
  | post :: rest =>
    classify_record decode now post (respond i) ::
      batch_classify_go decode now respond (i + 1) rest

/-- `OllamaClient.batch_classify`. -/
def batch_classify (decode : String → Option PyVal) (now : String)
    (respond : Nat → Option String) (posts : List PyDict) : List PyDict :=
  batch_classify_go decode now respond 0 posts

theorem batch_classify_go_length (decode : String → Option PyVal) (now : String)
    (respond : Nat → Option String) (posts : List PyDict) :
    ∀ i, (batch_classify_go decode now respond i posts).length = posts.length := by
  induction posts with
  | nil => intro i; rfl
  | cons post rest ih => intro i; simp [batch_classify_go, ih]

theorem batch_classify_go_getD (decode : String → Option PyVal) (now : String)
    (respond : Nat → Option String) (posts : List PyDict) :
    ∀ i j, j < posts.length →
      (batch_classify_go decode now respond i posts).getD j [] =
        classify_record decode now (posts.getD j []) (respond (i + j)) := by
  induction posts with
  | nil => intro i j h; simp at h
  | cons post rest ih =>
    intro i j h
    cases j with
    | zero => rfl
    | succ j' =>
      have h' : j' < rest.length := by simpa using h
      have := ih (i + 1) j' h'
      simpa [batch_classify_go, Nat.add_assoc, Nat.add_comm 1 j'] using this

theorem classify_record_processed_at (decode : String → Option PyVal) (now : String)
    (post : PyDict) (resp : Option String) :
    dictGet (classify_record decode now post resp) "processed_at" =
      some (PyVal.str now) := by
  unfold classify_record
  split
  · split
    · rw [dictGet_dictSet_of_ne _ "error" "processed_at" _ (by decide),
          dictGet_dictSet_self]
    · rw [dictGet_dictSet_self]
  · rw [dictGet_dictSet_of_ne _ "error" "processed_at" _ (by decide),
        dictGet_dictSet_self]

theorem classify_record_classification (decode : String → Option PyVal) (now : String)
    (post : PyDict) (resp : Option String) :
    (dictGet (classify_record decode now post resp) "classification").isSome := by
  unfold classify_record
  split
  · split
    · rw [dictGet_dictSet_of_ne _ "error" "classification" _ (by decide),
          dictGet_dictSet_of_ne _ "processed_at" "classification" _ (by decide),
          dictGet_dictSet_self]
      rfl
    · rw [dictGet_dictSet_of_ne _ "processed_at" "classification" _ (by decide),
          dictGet_dictSet_self]
      rfl
  · rw [dictGet_dictSet_of_ne _ "error" "classification" _ (by decide),
        dictGet_dictSet_of_ne _ "processed_at" "classification" _ (by decide),
        dictGet_dictSet_self]
    rfl

theorem classify_record_of_fail (decode : String → Option PyVal) (now : String)
    (post : PyDict) (resp : Option String)
    (h : classify_content decode resp = none) :
    dictGet (classify_record decode now post resp) "classification" =
      some (PyVal.obj default_classification) ∧
    dictGet (classify_record decode now post resp) "error" =
      some (PyVal.str "分类失败") := by
  unfold classify_record
  rw [h]
  constructor
  · rw [dictGet_dictSet_of_ne _ "error" "classification" _ (by decide),
        dictGet_dictSet_of_ne _ "processed_at" "classification" _ (by decide),
        dictGet_dictSet_self]
  · rw [dictGet_dictSet_self]

/-- C3: `batch_classify` yields exactly one output record per input post,
in order (the j-th output is the j-th input enriched using the j-th
service response); every record carries a `processed_at` timestamp and a
`classification`; and when `classify_content` obtains no result for a
post, that record's classification is the default 其他 dict with
confidence 0 together with the explicit error marker.  (`classify` never
raises: every exception path inside `classify_content` returns `None`,
which is why the model is a total function.) -/
theorem c3_batch_totality (decode : String → Option PyVal) (now : String)
    (respond : Nat → Option String) (posts : List PyDict) :
    (batch_classify decode now respond posts).length = posts.length ∧
    (∀ j, j < posts.length →
      (batch_classify decode now respond posts).getD j [] =
        classify_record decode now (posts.getD j []) (respond j) ∧
      dictGet ((batch_classify decode now respond posts).getD j []) "processed_at" =
        some (PyVal.str now) ∧
      (dictGet ((batch_classify decode now respond posts).getD j []) "classification").isSome ∧
      (classify_content decode (respond j) = none →
        dictGet ((batch_classify decode now respond posts).getD j []) "classification" =
          some (PyVal.obj default_classification) ∧
        dictGet ((batch_classify decode now respond posts).getD j []) "error" =
          some (PyVal.str "分类失败"))) := by
  have hget : ∀ j, j < posts.length →
      (batch_classify decode now respond posts).getD j [] =
        classify_record decode now (posts.getD j []) (respond j) := by
    intro j hj
    have := batch_classify_go_getD decode now respond posts 0 j hj
    simpa [batch_classify] using this
  refine ⟨batch_classify_go_length decode now respond posts 0, ?_⟩
  intro j hj
  refine ⟨hget j hj, ?_, ?_, ?_⟩
  · rw [hget j hj]; exact classify_record_processed_at ..
  · rw [hget j hj]; exact classify_record_classification ..
  · intro hf
    rw [hget j hj]
    exact classify_record_of_fail decode now _ (respond j) hf

/-- Concrete instance of C3: with a transport that always fails, a
two-post batch yields two records, each carrying the default 其他
classification and the error marker. -/
theorem c3_batch_totality_witness :
    (batch_classify (fun _ => none) "t" (fun _ => none) [[], []]).length = 2 ∧
    dictGet ((batch_classify (fun _ => none) "t" (fun _ => none) [[], []]).getD 1 [])
      "classification" = some (PyVal.obj default_classification) ∧
    dictGet ((batch_classify (fun _ => none) "t" (fun _ => none) [[], []]).getD 1 [])
      "error" = some (PyVal.str "分类失败") := by
  have h := c3_batch_totality (fun _ => none) "t" (fun _ => none) [[], []]
  have h1 := (h.2 1 (by decide)).2.2.2 rfl
  exact ⟨h.1, h1.1, h1.2⟩

/-- `MAX_CONTENT_LENGTH` from `config.py`. -/
def MAX_CONTENT_LENGTH : Nat := 5000

/-- `NGAClassifier.fetch_post_content`, with the network fetch and the
BeautifulSoup extraction `_parse_post_content` abstracted into the
`content` argument (`none` covers both a fetch exception and an empty
extraction result).  Only the truncation step (`if content and
len(content) > MAX_CONTENT_LENGTH: content = content[:MAX_CONTENT_LENGTH]
+ "..."`) is computed here. -/
def fetch_post_content (content : Option String) : Option String :=
  match content with
  | none => none
  | some c =>
    if c ≠ "" ∧ c.length > MAX_CONTENT_LENGTH
    then some (String.mk (c.data.take MAX_CONTENT_LENGTH) ++ "...")
    else some c

/-- C9: cleaned content longer than MAX_CONTENT_LENGTH characters is
returned as exactly its first MAX_CONTENT_LENGTH characters followed by
the ellipsis marker; content at or below the bound is returned
unchanged. -/
theorem c9_truncation (c : String) :
    (MAX_CONTENT_LENGTH < c.length →
      fetch_post_content (some c) =
        some (String.mk (c.data.take MAX_CONTENT_LENGTH) ++ "...") ∧
      (String.mk (c.data.take MAX_CONTENT_LENGTH)).length = MAX_CONTENT_LENGTH) ∧
    (c.length ≤ MAX_CONTENT_LENGTH → fetch_post_content (some c) = some c) := by
  constructor
  · intro h
    have hne : c ≠ "" := by
      intro he
      rw [he] at h
      simp [String.length] at h
    constructor
    · simp [fetch_post_content, hne, h]
    · have ht : (c.data.take MAX_CONTENT_LENGTH).length = MAX_CONTENT_LENGTH := by
        rw [List.length_take]
        exact min_eq_left (Nat.le_of_lt h)
      exact ht
  · intro h
    have hnot : ¬ (c ≠ "" ∧ c.length > MAX_CONTENT_LENGTH) := by
      rintro ⟨-, hgt⟩
      omega
    simp [fetch_post_content, hnot]

/-- A 5001-character cleaned content. -/
def longContent : String := String.mk (List.replicate 5001 'a')

/-- Concrete instance of C9: a 5001-character content is truncated to its
first 5000 characters plus the marker; a 3-character content is
unchanged. -/
theorem c9_truncation_witness :
    (fetch_post_content (some longContent) =
      some (String.mk (longContent.data.take MAX_CONTENT_LENGTH) ++ "...") ∧
     (String.mk (longContent.data.take MAX_CONTENT_LENGTH)).length = MAX_CONTENT_LENGTH) ∧
    fetch_post_content (some "abc") = some "abc" :=
  ⟨(c9_truncation longContent).1
      (by
        have h : longContent.length = 5001 := List.length_replicate 5001 'a'
        rw [h]
        decide),
   (c9_truncation "abc").2 (by decide)⟩

/-- The maximal digit run `\d+` would capture at the current position
(`re` matches ASCII-decimal digit runs greedily). -/
def digitRun (s : List Char) : List Char := s.takeWhile Char.isDigit

/-- `re.search` for a pattern of the form `lit(\d+)` with `lit` a literal:
scan positions left to right; at the first position where the literal
matches and is followed by at least one digit, capture the digit run. -/
def searchLitDigits (lit : List Char) : List Char → Option (List Char)
  | [] => none
  | c :: rest =>
    if lit.isPrefixOf (c :: rest) && !(digitRun ((c :: rest).drop lit.length)).isEmpty
    then some (digitRun ((c :: rest).drop lit.length))
    else searchLitDigits lit rest

/-- After a literal `read.php` match: the lazy `.*?tid=(\d+)` — scan
forward for `tid=` followed by a digit, giving up at a newline (which
`.` cannot match). -/
def findTidAfter : List Char → Option (List Char)
  | [] => none
  | c :: rest =>
    if "tid=".data.isPrefixOf (c :: rest) && !(digitRun ((c :: rest).drop 4)).isEmpty
    then some (digitRun ((c :: rest).drop 4))
    else if c = '\n' then none
    else findTidAfter rest

/-- `re.search` for the fifth pattern `read\.php.*?tid=(\d+)`: leftmost
position where `read.php` matches and some `tid=\d+` follows on the same
line. -/
def searchReadPhpTid : List Char → Option (List Char)
  | [] => none
  | c :: rest =>
    if "read.php".data.isPrefixOf (c :: rest) then
      match findTidAfter ((c :: rest).drop 8) with
      | some ds => some ds
      | none => searchReadPhpTid rest
    else searchReadPhpTid rest

/-- `NGAClassifier._extract_topic_id`: try the five patterns in order,
return the first captured digit group, or the empty string. -/
def extract_topic_id (url : String) : String :=
  match searchLitDigits "tid=".data url.data with
  | some ds => String.mk ds
  | none =>
    match searchLitDigits "read.php?tid=".data url.data with
    | some ds => String.mk ds
    | none =>
      match searchLitDigits "/thread/".data url.data with
      | some ds => String.mk ds
      | none =>
        match searchLitDigits "/read/".data url.data with
        | some ds => String.mk ds
        | none =>
          match searchReadPhpTid url.data with
          | some ds => String.mk ds
          | none => ""

/-- `utils.parse_nga_topic_id`: the same contract with a three-pattern
ordered list. -/
def parse_nga_topic_id (url : String) : String :=
  match searchLitDigits "tid=".data url.data with
  | some ds => String.mk ds
  | none =>
    match searchLitDigits "/thread/".data url.data with
    | some ds => String.mk ds
    | none =>
      match searchLitDigits "read.php?tid=".data url.data with
      | some ds => String.mk ds
      | none => ""

/-- C10: the topic-id extractors are deterministic (pure functions of the
URL); on the URL `https://ngabbs.com/read.php?tid=12345` both return
`"12345"`; and when none of the ordered patterns matches,
`extract_topic_id` returns the empty string. -/
theorem c10_identifier_extraction :
    (∀ url : String, extract_topic_id url = extract_topic_id url ∧
      parse_nga_topic_id url = parse_nga_topic_id url) ∧
    extract_topic_id "https://ngabbs.com/read.php?tid=12345" = "12345" ∧
    parse_nga_topic_id "https://ngabbs.com/read.php?tid=12345" = "12345" ∧
    (∀ url : String,
      searchLitDigits "tid=".data url.data = none →
      searchLitDigits "read.php?tid=".data url.data = none →
      searchLitDigits "/thread/".data url.data = none →
      searchLitDigits "/read/".data url.data = none →
      searchReadPhpTid url.data = none →
      extract_topic_id url = "") := by
  refine ⟨fun url => ⟨rfl, rfl⟩, rfl, rfl, ?_⟩
  intro url h1 h2 h3 h4 h5
  simp only [extract_topic_id, h1, h2, h3, h4, h5]

/-- Concrete instance of C10: a URL matching no pattern yields the empty
string, and the spec's example URL yields 12345. -/
theorem c10_identifier_extraction_witness :
    extract_topic_id "https://example.org/index" = "" ∧
    extract_topic_id "https://ngabbs.com/read.php?tid=12345" = "12345" :=
  ⟨c10_identifier_extraction.2.2.2 "https://example.org/index" rfl rfl rfl rfl rfl,
   c10_identifier_extraction.2.1⟩

/-- A post stub as built by `_parse_forum_page` (`post_info` dict). -/
structure PostInfo where
  title : String
  url : String
  topic_id : String
  author : String
deriving DecidableEq

/-- The deduplication loop at the end of `_parse_forum_page`: keep a post
iff its `topic_id` is non-empty (Python truthiness) and not yet in
`seen_ids`, preserving order. -/
def dedup_go (seen : List String) : List PostInfo → List PostInfo
  | [] => []
  | p :: rest =>
    if p.topic_id ≠ "" ∧ p.topic_id ∉ seen
    then p :: dedup_go (p.topic_id :: seen) rest
    else dedup_go seen rest

/-- `NGAClassifier._parse_forum_page` with the BeautifulSoup row
extraction abstracted into the `rows` argument (the `posts` list built
by the row loop before deduplication); only the final dedup stage is
computed here. -/
def parse_forum_page (rows : List PostInfo) : List PostInfo := dedup_go [] rows

theorem dedup_go_sublist (rows : List PostInfo) :
    ∀ seen, (dedup_go seen rows).Sublist rows := by
  induction rows with
  | nil => intro seen; simp [dedup_go]
  | cons p rest ih =>
    intro seen
    unfold dedup_go
    split
    · exact List.Sublist.cons₂ p (ih _)
    · exact List.Sublist.cons p (ih _)

theorem dedup_go_not_seen (rows : List PostInfo) :
    ∀ seen q, q ∈ dedup_go seen rows → q.topic_id ≠ "" ∧ q.topic_id ∉ seen := by
  induction rows with
  | nil => intro seen q hq; simp [dedup_go] at hq
  | cons p rest ih =>
    intro seen q hq
    unfold dedup_go at hq
    by_cases hc : p.topic_id ≠ "" ∧ p.topic_id ∉ seen
    · rw [if_pos hc, List.mem_cons] at hq
      rcases hq with rfl | hq
      · exact hc
      · have := ih _ q hq
        exact ⟨this.1, fun hmem => this.2 (List.mem_cons_of_mem _ hmem)⟩
    · rw [if_neg hc] at hq
      exact ih _ q hq

theorem dedup_go_nodup (rows : List PostInfo) :
    ∀ seen, ((dedup_go seen rows).map PostInfo.topic_id).Nodup := by
  induction rows with
  | nil => intro seen; simp [dedup_go]
  | cons p rest ih =>
    intro seen
    unfold dedup_go
    split
    · simp only [List.map_cons, List.nodup_cons]
      refine ⟨?_, ih _⟩
      intro hmem
      rcases List.mem_map.mp hmem with ⟨q, hq, hqt⟩
      have := (dedup_go_not_seen rest _ q hq).2
      exact this (by rw [hqt]; exact List.mem_cons_self _ _)
    · exact ih _

theorem dedup_go_first (rows : List PostInfo) :
    ∀ seen t r, t ≠ "" → t ∉ seen →
      rows.find? (fun p => p.topic_id = t) = some r →
      r ∈ dedup_go seen rows := by
  induction rows with
  | nil => intro seen t r _ _ hf; simp [List.find?] at hf
  | cons p rest ih =>
    intro seen t r ht hns hf
    rw [List.find?_cons] at hf
    by_cases hp : p.topic_id = t
    · have hd : decide (p.topic_id = t) = true := decide_eq_true hp
      simp only [hd] at hf
      injection hf with hf
      subst hf
      unfold dedup_go
      rw [if_pos ⟨by rw [hp]; exact ht, by rw [hp]; exact hns⟩]
      exact List.mem_cons_self _ _
    · have hd : decide (p.topic_id = t) = false := decide_eq_false hp
      simp only [hd] at hf
      unfold dedup_go
      split
      · exact List.mem_cons_of_mem _
          (ih _ t r ht
            (by
              simp only [List.mem_cons, not_or]
              exact ⟨fun h => hp h.symm, hns⟩) hf)
      · exact ih _ t r ht hns hf

/-- C5 (amended): within one listing page, the parser output contains no
two stubs with the same `topic_id`, every output stub has a non-empty
`topic_id`, output order is a subsequence of input order, and the first
input row carrying a given non-empty `topic_id` is kept.  (Across pages
of one crawl this uniqueness does NOT hold: deduplication is applied per
page only — see the counterexample.) -/
theorem c5_deduplication (rows : List PostInfo) :
    ((parse_forum_page rows).map PostInfo.topic_id).Nodup ∧
    (∀ q ∈ parse_forum_page rows, q.topic_id ≠ "") ∧
    (parse_forum_page rows).Sublist rows ∧
    (∀ t r, t ≠ "" → rows.find? (fun p => p.topic_id = t) = some r →
      r ∈ parse_forum_page rows) :=
  ⟨dedup_go_nodup rows [],
   fun q hq => (dedup_go_not_seen rows [] q hq).1,
   dedup_go_sublist rows [],
   fun t r ht hf => dedup_go_first rows [] t r ht (by simp) hf⟩

/-- Concrete instance of C5: two rows with the same `topic_id` and a row
with an empty `topic_id` reduce to the single first row. -/
theorem c5_deduplication_witness :
    parse_forum_page [⟨"t1", "u1", "1", "a"⟩, ⟨"t2", "u2", "1", "b"⟩, ⟨"t3", "u3", "", "c"⟩] =
      [⟨"t1", "u1", "1", "a"⟩] ∧
    (⟨"t1", "u1", "1", "a"⟩ : PostInfo) ∈
      parse_forum_page [⟨"t1", "u1", "1", "a"⟩, ⟨"t2", "u2", "1", "b"⟩, ⟨"t3", "u3", "", "c"⟩] := by
  constructor
  · decide
  · exact (c5_deduplication
      [⟨"t1", "u1", "1", "a"⟩, ⟨"t2", "u2", "1", "b"⟩, ⟨"t3", "u3", "", "c"⟩]).2.2.2
      "1" ⟨"t1", "u1", "1", "a"⟩ (by decide) (by decide)

/-- `DEFAULT_MAX_PAGES` from `config.py`. -/
def DEFAULT_MAX_PAGES : Nat := 10

/-- `MAX_PAGES_LIMIT` from `config.py`: the hard page cap. -/
def MAX_PAGES_LIMIT : Nat := 100

/-- What fetching one listing page can yield, abstracting the HTTP GET and
the BeautifulSoup row extraction of `fetch_forum_posts`:
`fetchError` covers any exception in the page body (non-2xx raised by
`raise_for_status`, timeouts, parse crashes); otherwise `authRequired`
says whether the response text contains the 你必须登录 marker, and
`rows` is the pre-dedup row list `_parse_forum_page` extracts. -/
inductive PageResult where
  | fetchError
  | page (authRequired : Bool) (rows : List PostInfo)

/-- The page loop of `NGAClassifier.fetch_forum_posts`: on an exception
log and continue with the next page; on the auth marker break; parse the
page, break when it yields no posts, else extend and continue. -/
def fetchPagesGo (getPage : Nat → PageResult) (acc : List PostInfo) : List Nat → List PostInfo
  | [] => acc
  | p :: rest =>
    match getPage p with
    | PageResult.fetchError => fetchPagesGo getPage acc rest
    | PageResult.page true _ => acc
    | PageResult.page false rows =>
      if (parse_forum_page rows).isEmpty then acc
      else fetchPagesGo getPage (acc ++ parse_forum_page rows) rest

/-- `NGAClassifier.fetch_forum_posts`: clamp `max_pages` to
`MAX_PAGES_LIMIT`, then loop over pages `1..max_pages`. -/
def fetch_forum_posts (getPage : Nat → PageResult) (max_pages : Nat) : List PostInfo :=
  fetchPagesGo getPage []
    (List.range' 1 (if max_pages > MAX_PAGES_LIMIT then MAX_PAGES_LIMIT else max_pages))

/-- The pages the loop actually requests (same traversal as
`fetchPagesGo`, recording the page numbers passed to `getPage`). -/
def requestedPagesGo (getPage : Nat → PageResult) : List Nat → List Nat
  | [] => []
  | p :: rest =>
    match getPage p with
    | PageResult.fetchError => p :: requestedPagesGo getPage rest
    | PageResult.page true _ => [p]
    | PageResult.page false rows =>
      if (parse_forum_page rows).isEmpty then [p]
      else p :: requestedPagesGo getPage rest

/-- Pages requested by a whole `fetch_forum_posts` run. -/
def requestedPages (getPage : Nat → PageResult) (max_pages : Nat) : List Nat :=
  requestedPagesGo getPage
    (List.range' 1 (if max_pages > MAX_PAGES_LIMIT then MAX_PAGES_LIMIT else max_pages))

theorem requestedPagesGo_length (getPage : Nat → PageResult) (pages : List Nat) :
    (requestedPagesGo getPage pages).length ≤ pages.length := by
  induction pages with
  | nil => simp [requestedPagesGo]
  | cons p rest ih =>
    cases hgp : getPage p with
    | fetchError =>
      simp only [requestedPagesGo, hgp, List.length_cons]
      omega
    | page auth rows =>
      cases auth with
      | false =>
        simp only [requestedPagesGo, hgp]
        split
        · simp only [List.length_cons, List.length_nil]
          omega
        · simp only [List.length_cons]
          omega
      | true =>
        simp only [requestedPagesGo, hgp, List.length_cons, List.length_nil]
        omega

/-- C6 (paging bound and error isolation): a crawl requests at most
`MAX_PAGES_LIMIT` listing pages; the loop stops at a page whose response
carries the authentication marker, and at a page yielding zero stubs,
returning exactly the already-collected stubs `acc` in both cases; and a
page whose fetch raises is skipped, the loop continuing with the
remaining pages unchanged. -/
theorem c6_paging_bound (getPage : Nat → PageResult) (max_pages : Nat) :
    (requestedPages getPage max_pages).length ≤ MAX_PAGES_LIMIT ∧
    (∀ acc rest p rows, getPage p = PageResult.page true rows →
      fetchPagesGo getPage acc (p :: rest) = acc) ∧
    (∀ acc rest p rows, getPage p = PageResult.page false rows →
      (parse_forum_page rows).isEmpty = true →
      fetchPagesGo getPage acc (p :: rest) = acc) ∧
    (∀ acc rest p, getPage p = PageResult.fetchError →
      fetchPagesGo getPage acc (p :: rest) = fetchPagesGo getPage acc rest) := by
  refine ⟨?_, ?_, ?_, ?_⟩
  · have h1 := requestedPagesGo_length getPage
      (List.range' 1 (if max_pages > MAX_PAGES_LIMIT then MAX_PAGES_LIMIT else max_pages))
    have h2 : (List.range' 1
        (if max_pages > MAX_PAGES_LIMIT then MAX_PAGES_LIMIT else max_pages)).length ≤
        MAX_PAGES_LIMIT := by
      rw [List.length_range']
      split <;> omega
    exact le_trans h1 h2
  · intro acc rest p rows h
    simp only [fetchPagesGo, h]
  · intro acc rest p rows h hemp
    simp only [fetchPagesGo, h, hemp, if_true]
  · intro acc rest p h
    simp only [fetchPagesGo, h]

/-- The page oracle for the C6 witness: page 1 raises, page 2 carries the
auth marker, page 3 parses to zero stubs, later pages have one stub. -/
def getPageW : Nat → PageResult := fun n =>
  if n = 1 then PageResult.fetchError
  else if n = 2 then PageResult.page true []
  else if n = 3 then PageResult.page false []
  else PageResult.page false [⟨"t", "u", "9", "a"⟩]

/-- Concrete instance of C6: the bound holds for a five-page request, an
auth page and an empty page return the accumulated stubs, and an
erroring page is skipped. -/
theorem c6_paging_bound_witness :
    (requestedPages getPageW 5).length ≤ MAX_PAGES_LIMIT ∧
    fetchPagesGo getPageW [] (2 :: [3]) = [] ∧
    fetchPagesGo getPageW [⟨"t", "u", "9", "a"⟩] (3 :: []) = [⟨"t", "u", "9", "a"⟩] ∧
    fetchPagesGo getPageW [] (1 :: [4]) = fetchPagesGo getPageW [] [4] := by
  have h := c6_paging_bound getPageW 5
  exact ⟨h.1, h.2.1 [] [3] 2 [] rfl,
         h.2.2.1 [⟨"t", "u", "9", "a"⟩] [] 3 [] rfl rfl,
         h.2.2.2 [] [4] 1 rfl⟩

/-- A page oracle on which every page lists the same topic. -/
def getPageDup : Nat → PageResult := fun _ =>
  PageResult.page false [⟨"t", "u", "1", "a"⟩]

/-- Counterexample to C5 as stated: deduplication is applied per page
only, so a two-page crawl in which both pages list topic 1 returns two
stubs sharing `topic_id` 1 — the final listing of a multi-page crawl is
not duplicate-free. -/
theorem c5_deduplication_counterexample :
    (fetch_forum_posts getPageDup 2).map PostInfo.topic_id = ["1", "1"] ∧
    ¬ ((fetch_forum_posts getPageDup 2).map PostInfo.topic_id).Nodup := by
  constructor
  · decide
  · decide

/-- Python numeric coercion used by `confidence > 0.5`: numbers and bools
compare as numbers (True is 1), anything else raises `TypeError`. -/
def pyAsNum : PyVal → Option ℚ
  | PyVal.bool b => some (if b then 1 else 0)
  | PyVal.num q => some q
  | _ => none

/-- A hashable Python value as used for dict keys in the statistics
counters; bools are merged with numbers since `True == 1` in Python. -/
inductive PyKey where
  | null
  | num (q : ℚ)
  | str (s : String)
  | dt (ymd : String)
deriving DecidableEq

/-- Convert a value to a dict key; `none` models the `TypeError` raised
for unhashable values (lists, dicts). -/
def toKey : PyVal → Option PyKey
  | PyVal.null => some PyKey.null
  | PyVal.bool b => some (PyKey.num (if b then 1 else 0))
  | PyVal.num q => some (PyKey.num q)
  | PyVal.str s => some (PyKey.str s)
  | PyVal.datetime d => some (PyKey.dt d)
  | PyVal.arr _ => none
  | PyVal.obj _ => none

/-- `for x in v`: lists yield their elements, strings their characters,
dicts their keys; `none` models the `TypeError` for non-iterables. -/
def iterKeys : PyVal → Option (List PyVal)
  | PyVal.arr xs => some xs
  | PyVal.str s => some (s.data.map (fun c => PyVal.str (String.mk [c])))
  | PyVal.obj kvs => some (kvs.map (fun kv => PyVal.str kv.1))
  | _ => none

/-- `counter[k] = counter.get(k, 0) + 1` on an insertion-ordered dict. -/
def incrCounter (d : List (PyKey × Nat)) (k : PyKey) : List (PyKey × Nat) :=
  match d with
  | [] => [(k, 1)]
  | (k', n) :: rest => if k' = k then (k', n + 1) :: rest else (k', n) :: incrCounter rest k

/-- One `for x in xs: counter[x] = counter.get(x, 0) + 1` loop. -/
def foldIncr (d : List (PyKey × Nat)) : List PyVal → Option (List (PyKey × Nat))
  | [] => some d
  | v :: vs =>
    match toKey v with
    | none => none
    | some k => foldIncr (incrCounter d k) vs

/-- The four counter dicts built by the loop of `generate_statistics`. -/
structure StatsAcc where
  categories : List (PyKey × Nat)
  keywords : List (PyKey × Nat)
  authors : List (PyKey × Nat)
  time_distribution : List (PyKey × Nat)

/-- One iteration of the `for post in classified_posts` loop of
`NGAClassifier.generate_statistics`: count the post's categories,
keywords, author and (when present) `parsed_time` date.  `none` models
an uncaught exception (`.get` on a non-dict classification, iterating a
non-iterable, unhashable keys, `strftime` on a non-datetime). -/
def processPost (acc : StatsAcc) (post : PyDict) : Option StatsAcc :=
  match (dictGet post "classification").getD (PyVal.obj []) with
  | PyVal.obj cl =>
    match iterKeys ((dictGet cl "categories").getD (PyVal.arr [])) with
    | none => none
    | some cvs =>
      match foldIncr acc.categories cvs with
      | none => none
      | some cats =>
        match iterKeys ((dictGet cl "keywords").getD (PyVal.arr [])) with
        | none => none
        | some kvs =>
          match foldIncr acc.keywords kvs with
          | none => none
          | some kws =>
            match toKey ((dictGet post "author").getD (PyVal.str "未知")) with
            | none => none
            | some ak =>
              match dictGet post "parsed_time" with
              | none => some ⟨cats, kws, incrCounter acc.authors ak, acc.time_distribution⟩
              | some (PyVal.datetime d) =>
                some ⟨cats, kws, incrCounter acc.authors ak,
                      incrCounter acc.time_distribution (PyKey.str d)⟩
              | some _ => none
  | _ => none

/-- The counting loop of `generate_statistics`. -/
def statsLoop (acc : StatsAcc) : List PyDict → Option StatsAcc
  | [] => some acc
  | post :: rest =>
    match processPost acc post with
    | none => none
    | some acc' => statsLoop acc' rest

/-- `post.get('classification', {}).get('confidence', 0)` as a number,
`none` for the `TypeError`/`AttributeError` cases. -/
def confOfPost (post : PyDict) : Option ℚ :=
  match (dictGet post "classification").getD (PyVal.obj []) with
  | PyVal.obj cl => pyAsNum ((dictGet cl "confidence").getD (PyVal.num 0))
  | _ => none

/-- `len([p for p in classified_posts if p...confidence > 0.5])`. -/
def rateCount : List PyDict → Option Nat
  | [] => some 0
  | post :: rest =>
    match confOfPost post with
    | none => none
    | some q =>
      match rateCount rest with
      | none => none
      | some n => some (if q > 1/2 then n + 1 else n)

/-- `max(d.items(), key=lambda x: x[1])` guarded by `if d else None`:
first entry of maximal count (Python's `max` keeps the first among
ties). -/
def maxByCount (d : List (PyKey × Nat)) : Option (PyKey × Nat) :=
  match d with
  | [] => none
  | x :: xs => some (xs.foldl (fun b y => if y.2 > b.2 then y else b) x)

/-- The `stats` dict returned by `generate_statistics`, with the
`summary` sub-dict flattened into the last four fields. -/
structure Stats where
  total_posts : Nat
  categories : List (PyKey × Nat)
  keywords : List (PyKey × Nat)
  authors : List (PyKey × Nat)
  time_distribution : List (PyKey × Nat)
  most_common_category : Option (PyKey × Nat)
  most_common_keyword : Option (PyKey × Nat)
  most_active_author : Option (PyKey × Nat)
  classification_rate : ℚ

/-- `NGAClassifier.generate_statistics`.  `none` models an uncaught
exception while counting. -/
def generate_statistics (classified_posts : List PyDict) : Option Stats :=
  match statsLoop ⟨[], [], [], []⟩ classified_posts with
  | none => none
  | some acc =>
    match rateCount classified_posts with
    | none => none
    | some cnt =>
      some ⟨classified_posts.length, acc.categories, acc.keywords, acc.authors,
            acc.time_distribution, maxByCount acc.categories, maxByCount acc.keywords,
            maxByCount acc.authors,
            if classified_posts.isEmpty then 0
            else (cnt : ℚ) / (classified_posts.length : ℚ)⟩

/-- Sum of a counter dict's values. -/
def counterTotal (d : List (PyKey × Nat)) : Nat := (d.map Prod.snd).sum

/-- A well-formed classified post as the claim intends: a present dict
classification whose `categories` is a one-element list with a hashable
element, list-shaped hashable keywords (or absent), numeric confidence
(or absent), hashable author (or absent), datetime `parsed_time` (or
absent). -/
def WFClassifiedPost (post : PyDict) : Prop :=
  (∃ cl, dictGet post "classification" = some (PyVal.obj cl) ∧
    (∃ v, dictGet cl "categories" = some (PyVal.arr [v]) ∧ (toKey v).isSome) ∧
    (dictGet cl "keywords" = none ∨
      ∃ ks, dictGet cl "keywords" = some (PyVal.arr ks) ∧ ∀ k ∈ ks, (toKey k).isSome) ∧
    (dictGet cl "confidence" = none ∨
      ∃ w, dictGet cl "confidence" = some w ∧ (pyAsNum w).isSome)) ∧
  (dictGet post "author" = none ∨
    ∃ a, dictGet post "author" = some a ∧ (toKey a).isSome) ∧
  (dictGet post "parsed_time" = none ∨
    ∃ d, dictGet post "parsed_time" = some (PyVal.datetime d))

theorem counterTotal_incr (d : List (PyKey × Nat)) (k : PyKey) :
    counterTotal (incrCounter d k) = counterTotal d + 1 := by
  induction d with
  | nil => simp [incrCounter, counterTotal]
  | cons hd tl ih =>
    rcases hd with ⟨k', n⟩
    unfold incrCounter
    by_cases h : k' = k
    · rw [if_pos h]
      simp [counterTotal]
      omega
    · rw [if_neg h]
      simp [counterTotal] at ih ⊢
      omega

theorem foldIncr_wf (vs : List PyVal) :
    ∀ d, (∀ v ∈ vs, (toKey v).isSome) →
      ∃ d', foldIncr d vs = some d' ∧ counterTotal d' = counterTotal d + vs.length := by
  induction vs with
  | nil => intro d _; exact ⟨d, rfl, by simp⟩
  | cons v vs ih =>
    intro d h
    have hv : (toKey v).isSome := h v (List.mem_cons_self _ _)
    rcases Option.isSome_iff_exists.mp hv with ⟨k, hk⟩
    obtain ⟨d', hd', hsum⟩ := ih (incrCounter d k) (fun w hw => h w (List.mem_cons_of_mem _ hw))
    refine ⟨d', ?_, ?_⟩
    · simp only [foldIncr, hk, hd']
    · rw [hsum, counterTotal_incr, List.length_cons]
      omega

theorem processPost_wf (post : PyDict) (acc : StatsAcc) (h : WFClassifiedPost post) :
    ∃ acc', processPost acc post = some acc' ∧
      counterTotal acc'.categories = counterTotal acc.categories + 1 := by
  obtain ⟨⟨cl, hcl, ⟨v, hv, hvk⟩, hkw, hconf⟩, hauth, hpt⟩ := h
  have hcv : iterKeys ((dictGet cl "categories").getD (PyVal.arr [])) = some [v] := by
    rw [hv]
    rfl
  obtain ⟨cats, hcats, hcsum⟩ := foldIncr_wf [v] acc.categories
    (by
      intro w hw
      rw [List.mem_singleton] at hw
      subst hw
      exact hvk)
  have hkws : ∃ ks, iterKeys ((dictGet cl "keywords").getD (PyVal.arr [])) = some ks ∧
      ∀ k ∈ ks, (toKey k).isSome := by
    rcases hkw with hkw | ⟨ks, hks, hksall⟩
    · refine ⟨[], by rw [hkw]; rfl, ?_⟩
      intro k hk
      cases hk
    · exact ⟨ks, by rw [hks]; rfl, hksall⟩
  obtain ⟨ks, hks, hksall⟩ := hkws
  obtain ⟨kws, hkws2, -⟩ := foldIncr_wf ks acc.keywords hksall
  have hak : ∃ ak, toKey ((dictGet post "author").getD (PyVal.str "未知")) = some ak := by
    rcases hauth with hauth | ⟨a, ha, hahash⟩
    · rw [hauth]
      exact ⟨PyKey.str "未知", rfl⟩
    · rw [ha]
      exact Option.isSome_iff_exists.mp hahash
  obtain ⟨ak, hak⟩ := hak
  rcases hpt with hpt | ⟨dt, hdt⟩
  · refine ⟨⟨cats, kws, incrCounter acc.authors ak, acc.time_distribution⟩, ?_, ?_⟩
    · simp only [processPost, hcl, Option.getD_some, hcv, hcats, hks, hkws2, hak, hpt]
    · simpa using hcsum
  · refine ⟨⟨cats, kws, incrCounter acc.authors ak,
        incrCounter acc.time_distribution (PyKey.str dt)⟩, ?_, ?_⟩
    · simp only [processPost, hcl, Option.getD_some, hcv, hcats, hks, hkws2, hak, hdt]
    · simpa using hcsum

theorem statsLoop_wf (posts : List PyDict) :
    ∀ acc, (∀ p ∈ posts, WFClassifiedPost p) →
      ∃ acc', statsLoop acc posts = some acc' ∧
        counterTotal acc'.categories = counterTotal acc.categories + posts.length := by
  induction posts with
  | nil => intro acc _; exact ⟨acc, rfl, by simp⟩
  | cons p rest ih =>
    intro acc h
    obtain ⟨acc1, hp1, hs1⟩ := processPost_wf p acc (h p (List.mem_cons_self _ _))
    obtain ⟨acc', hrest, hsum⟩ := ih acc1 (fun q hq => h q (List.mem_cons_of_mem _ hq))
    refine ⟨acc', ?_, ?_⟩
    · simp only [statsLoop, hp1, hrest]
    · rw [hsum, hs1, List.length_cons]
      omega

theorem confOfPost_wf (post : PyDict) (h : WFClassifiedPost post) :
    (confOfPost post).isSome := by
  obtain ⟨⟨cl, hcl, -, -, hconf⟩, -, -⟩ := h
  rcases hconf with hconf | ⟨w, hw, hwn⟩
  · simp only [confOfPost, hcl, Option.getD_some, hconf]
    rfl
  · simp only [confOfPost, hcl, Option.getD_some, hw]
    exact hwn

theorem rateCount_wf (posts : List PyDict) :
    (∀ p ∈ posts, WFClassifiedPost p) →
      ∃ cnt, rateCount posts = some cnt ∧ cnt ≤ posts.length := by
  induction posts with
  | nil => intro _; exact ⟨0, rfl, le_refl 0⟩
  | cons p rest ih =>
    intro h
    obtain ⟨q, hq⟩ := Option.isSome_iff_exists.mp (confOfPost_wf p (h p (List.mem_cons_self _ _)))
    obtain ⟨cnt, hcnt, hle⟩ := ih (fun r hr => h r (List.mem_cons_of_mem _ hr))
    refine ⟨if q > 1/2 then cnt + 1 else cnt, ?_, ?_⟩
    · simp only [rateCount, hq, hcnt]
    · rw [List.length_cons]
      split <;> omega

/-- C4 (amended): for a list of N classified posts whose classification
records are well-formed and carry exactly one category each, the
aggregator succeeds, its category counters sum to N, its
classification_rate lies in [0,1], and on the empty list the summary
fields are None with rate 0, no division being performed.  (Without the
exactly-one-category condition the counters sum to the number of
category entries, which can be below N — see the counterexample.) -/
theorem c4_aggregator_totals (posts : List PyDict)
    (h : ∀ p ∈ posts, WFClassifiedPost p) :
    ∃ s, generate_statistics posts = some s ∧
      counterTotal s.categories = posts.length ∧
      0 ≤ s.classification_rate ∧ s.classification_rate ≤ 1 ∧
      (posts = [] → s.most_common_category = none ∧ s.most_common_keyword = none ∧
        s.most_active_author = none ∧ s.classification_rate = 0) := by
  obtain ⟨acc, hacc, hsum⟩ := statsLoop_wf posts ⟨[], [], [], []⟩ h
  obtain ⟨cnt, hcnt, hle⟩ := rateCount_wf posts h
  rcases posts with _ | ⟨p0, prest⟩
  · exact ⟨⟨0, [], [], [], [], none, none, none, 0⟩, rfl, rfl, le_refl 0, by norm_num,
      fun _ => ⟨rfl, rfl, rfl, rfl⟩⟩
  · refine ⟨⟨(p0 :: prest).length, acc.categories, acc.keywords, acc.authors,
        acc.time_distribution, maxByCount acc.categories, maxByCount acc.keywords,
        maxByCount acc.authors, (cnt : ℚ) / ((p0 :: prest).length : ℚ)⟩,
        ?_, ?_, ?_, ?_, ?_⟩
    · simp [generate_statistics, hacc, hcnt]
    · simpa [counterTotal] using hsum
    · exact div_nonneg (Nat.cast_nonneg cnt) (Nat.cast_nonneg _)
    · rw [div_le_one (by exact_mod_cast Nat.succ_pos prest.length)]
      exact_mod_cast hle
    · intro hnil
      exact absurd hnil (by simp)

/-- A well-formed classified post for the C4 witness. -/
def c4WitnessPost : PyDict :=
  [("classification", PyVal.obj
      [("categories", PyVal.arr [PyVal.str "游戏"]),
       ("keywords", PyVal.arr []),
       ("confidence", PyVal.num 1)]),
   ("author", PyVal.str "u")]

/-- Concrete instance of C4 (amended): a one-post list with one category
aggregates to counters summing to 1 with a rate in [0,1]. -/
theorem c4_aggregator_totals_witness :
    ∃ s, generate_statistics [c4WitnessPost] = some s ∧
      counterTotal s.categories = [c4WitnessPost].length ∧
      0 ≤ s.classification_rate ∧ s.classification_rate ≤ 1 ∧
      ([c4WitnessPost] = ([] : List PyDict) → s.most_common_category = none ∧
        s.most_common_keyword = none ∧ s.most_active_author = none ∧
        s.classification_rate = 0) :=
  c4_aggregator_totals [c4WitnessPost]
    (by
      intro p hp
      rw [List.mem_singleton] at hp
      subst hp
      exact ⟨⟨[("categories", PyVal.arr [PyVal.str "游戏"]),
               ("keywords", PyVal.arr []),
               ("confidence", PyVal.num 1)], rfl,
              ⟨PyVal.str "游戏", rfl, rfl⟩,
              Or.inr ⟨[], rfl, fun k hk => absurd hk (List.not_mem_nil k)⟩,
              Or.inr ⟨PyVal.num 1, rfl, rfl⟩⟩,
             Or.inr ⟨PyVal.str "u", rfl, rfl⟩,
             Or.inl rfl⟩)

/-- A classified post whose classification carries an empty `categories`
list — the exact shape `_parse_classification_result` produces on its
error path (and, with confidence 0.5, on a backfilled parse). -/
def c4EmptyCatPost : PyDict :=
  [("classification", PyVal.obj
      [("categories", PyVal.arr []),
       ("keywords", PyVal.arr []),
       ("confidence", PyVal.num 0)]),
   ("author", PyVal.str "u")]

/-- Counterexample to C4 as stated: a one-post list whose classification
has an empty `categories` list aggregates with category counters summing
to 0, not to N = 1 — each post does not necessarily contribute to a
category bucket. -/
theorem c4_aggregator_totals_counterexample :
    (generate_statistics [c4EmptyCatPost]).map (fun s => counterTotal s.categories) =
      some 0 ∧
    [c4EmptyCatPost].length = 1 ∧ (0 : Nat) ≠ 1 :=
  ⟨rfl, rfl, by decide⟩
